import Mathlib

/-!
Shallow embedding of the vehicle path animator in `edr_importer.py`
(`animate_vehicle`, `import_csv_data` and their helpers).

Machine floats are modelled as elements of a linear ordered field `α`
(instantiated at `ℚ` for executable checks and at `ℝ` where the
trigonometric projection matters); the IEEE non-finite values that the
code guards against (`np.isfinite`) are modelled explicitly by the
`FloatVal` wrapper.  `cos`/`sin` are passed as function parameters `tc`/`ts`
so the integration kernel stays polymorphic.
-/

namespace HveTools

variable {α : Type} [LinearOrderedField α]

/-- Python's `round` (banker's rounding, ties to even), used by
`t_to_frame` via `int(round(tsec * fps))`. -/
def pyRound [FloorRing α] (q : α) : ℤ :=
  let f := ⌊q⌋
  if q - f < 1 / 2 then f
  else if 1 / 2 < q - f then f + 1
  else if Even f then f else f + 1

/-- `t_to_frame(tsec) = int(round(tsec * fps))` (line 181-183). -/
def t_to_frame [FloorRing α] (fps t : α) : ℤ := pyRound (t * fps)

/-- `num_steps = max(f1 - f0, 1)` (line 201). -/
def num_steps [FloorRing α] (fps t0 t1 : α) : ℤ :=
  max (t_to_frame fps t1 - t_to_frame fps t0) 1

/-- `dt = dt_interval / num_steps` (line 204). -/
def step_dt [FloorRing α] (fps t0 t1 : α) : α :=
  (t1 - t0) / ((num_steps fps t0 t1 : ℤ) : α)

/-- One row of the sample table after unit conversion: `time`, `speed`
(m/s) and `yaw_rate` (rad/s), lines 147-149. -/
structure Sample (α : Type) where
  time : α
  speed : α
  yaw_rate : α
deriving DecidableEq

/-- The running integration state inside a segment:
position `x`,`y`, heading `psi`, speed `v`, yaw rate `r`. -/
structure SubState (α : Type) where
  x : α
  y : α
  psi : α
  v : α
  r : α
deriving DecidableEq

/-- The pose carried from one segment to the next (`x`, `y`, `psi`);
`v` and `r` are re-snapped from the samples at each segment start. -/
structure Pose (α : Type) where
  x : α
  y : α
  psi : α
deriving DecidableEq

/-- One inserted keyframe: frame number, location x/y and Z-rotation
(the code also writes z = 0.0, which is constant and omitted here). -/
structure Key (α : Type) where
  frame : ℤ
  x : α
  y : α
  psi : α
deriving DecidableEq

/-- One integration sub-step (lines 215-228):
second-order yaw update, second-order speed update, then projection of
the forward distance `ds` along the just-updated heading `psi`. -/
def integrate_step (tc ts : α → α) (a rdot dt : α) (s : SubState α) : SubState α :=
  let psi := s.psi + s.r * dt + 0.5 * rdot * dt * dt
  let r := s.r + rdot * dt
  let ds := s.v * dt + 0.5 * a * dt * dt
  let v := s.v + a * dt
  { x := s.x + ds * tc psi
    y := s.y + ds * ts psi
    psi := psi
    v := v
    r := r }

/-- The inner `for step in range(num_steps)` loop (lines 215-236):
`step` is the current step index, the second `ℕ` argument counts the
remaining steps; each step emits a keyframe at `f0 + step + 1`. -/
def stepsAux (tc ts : α → α) (a rdot dt : α) (f0 : ℤ) :
    ℕ → ℕ → SubState α → SubState α × List (Key α)
  | _, 0, s => (s, [])
  | step, n + 1, s =>
      let s1 := integrate_step tc ts a rdot dt s
      let res := stepsAux tc ts a rdot dt f0 (step + 1) n s1
      (res.1, ⟨f0 + step + 1, s1.x, s1.y, s1.psi⟩ :: res.2)

/-- One iteration of the segment loop (lines 188-236): skip when
`dt_interval <= 0`, otherwise snap `v`,`r` to the segment-start sample,
compute the per-segment constant rates `a`, `rdot`, and run the
sub-steps. -/
def runInterval [FloorRing α] (tc ts : α → α) (fps : α)
    (s0 s1 : Sample α) (p : Pose α) : Pose α × List (Key α) :=
  let dtI := s1.time - s0.time
  if dtI ≤ 0 then (p, [])
  else
    let f0 := t_to_frame fps s0.time
    let dt := step_dt fps s0.time s1.time
    let a := (s1.speed - s0.speed) / dtI
    let rdot := (s1.yaw_rate - s0.yaw_rate) / dtI
    let st0 : SubState α := ⟨p.x, p.y, p.psi, s0.speed, s0.yaw_rate⟩
    let res := stepsAux tc ts a rdot dt f0 0 (num_steps fps s0.time s1.time).toNat st0
    (⟨res.1.x, res.1.y, res.1.psi⟩, res.2)

/-- The segment loop `for i in range(len(time) - 1)` (line 188), walking
consecutive sample pairs and threading the pose through. -/
def runIntervals [FloorRing α] (tc ts : α → α) (fps : α) :
    List (Sample α) → Pose α → Pose α × List (Key α)
  | s0 :: s1 :: rest, p =>
      let r1 := runInterval tc ts fps s0 s1 p
      let r2 := runIntervals tc ts fps (s1 :: rest) r1.1
      (r2.1, r1.2 ++ r2.2)
  | _, p => (p, [])

/-- The keyframe-producing part of `animate_vehicle` after validation
(lines 166-249): initial key at frame 0, the segment loop, then a final
key at `max(t_to_frame(time[-1]), last_keyed_frame)` holding the final
pose. -/
def animate_core [FloorRing α] (tc ts : α → α) (fps : α)
    (samples : List (Sample α)) (init : Pose α) : List (Key α) :=
  let key0 : Key α := ⟨0, init.x, init.y, init.psi⟩
  let res := runIntervals tc ts fps samples init
  let last_keyed := (res.2.map Key.frame).foldl max 0
  let final_frame :=
    max (t_to_frame fps ((samples.getLast?.getD ⟨0, 0, 0⟩).time)) last_keyed
  key0 :: res.2 ++ [⟨final_frame, res.1.x, res.1.y, res.1.psi⟩]

/-- An IEEE double as the validation code sees it: a finite value or one
of the non-finite values that `np.isfinite` rejects. -/
inductive FloatVal (α : Type) where
  | fin : α → FloatVal α
  | nan : FloatVal α
  | inf : FloatVal α
  | ninf : FloatVal α
deriving DecidableEq

/-- `np.isfinite` on one value. -/
def FloatVal.isFinite : FloatVal α → Bool
  | .fin _ => true
  | _ => false

/-- The finite payload (only meaningful on values that passed the
finiteness check). -/
def FloatVal.val : FloatVal α → α
  | .fin x => x
  | _ => 0

/-- IEEE multiplication by a positive finite constant (the unit
conversion factors 0.44704 and pi/180 are both positive and finite). -/
def FloatVal.mulPos [Mul α] : FloatVal α → α → FloatVal α
  | .fin x, c => .fin (x * c)
  | .nan, _ => .nan
  | .inf, _ => .inf
  | .ninf, _ => .ninf

/-- One `VehiclePathEntry` row as stored in the table (line 53-56),
before unit conversion. -/
structure VehiclePathEntry (α : Type) where
  time : FloatVal α
  speed : FloatVal α
  yaw_rate : FloatVal α
deriving DecidableEq

/-- Blender's `scene.unit_settings.system` as far as the importer cares. -/
inductive UnitSystem where
  | METRIC : UnitSystem
  | IMPERIAL : UnitSystem
deriving DecidableEq

/-- `get_speed_conversion_factor` (lines 22-32): `MPH_TO_MPS = 0.44704`
for IMPERIAL, `1.0` otherwise. -/
def get_speed_conversion_factor : UnitSystem → α
  | .IMPERIAL => 0.44704
  | .METRIC => 1

/-- The array extraction of lines 147-149: `time` kept as is, `speed`
multiplied by the unit factor, `yaw_rate` multiplied by `DEG_TO_RAD`
(passed in as `degToRad` since pi/180 only exists in `ℝ`). -/
def convert_entry (sc degToRad : α) (e : VehiclePathEntry α) : VehiclePathEntry α :=
  ⟨e.time, e.speed.mulPos sc, e.yaw_rate.mulPos degToRad⟩

/-- The animated object's relevant state: its existing animation data
(if any), location and Z-rotation. -/
structure Obj (α : Type) where
  animData : Option (List (Key α))
  x : α
  y : α
  z : α
  rotZ : α
deriving DecidableEq

/-- `animate_vehicle` (lines 127-255) up to the produced keyframes:
`none` models an early `self.report(...)`/`return` (fewer than 2 rows at
line 141, non-finite values at line 157); both checks run before
`obj.animation_data_clear()` at line 162 and before any keyframe is
inserted. -/
def animate_vehicle [FloorRing α] (tc ts : α → α) (degToRad fps : α)
    (u : UnitSystem) (obj : Obj α) (entries : List (VehiclePathEntry α)) :
    Option (List (Key α)) :=
  if entries.length < 2 then none
  else
    let conv := entries.map (convert_entry (get_speed_conversion_factor u) degToRad)
    if conv.all (fun e => e.time.isFinite && e.speed.isFinite && e.yaw_rate.isFinite) then
      let samples := conv.map (fun e => (⟨e.time.val, e.speed.val, e.yaw_rate.val⟩ : Sample α))
      some (animate_core tc ts fps samples ⟨obj.x, obj.y, obj.rotZ⟩)
    else none

/-- The object state after running the operator: on failure the object is
untouched (in particular `animation_data_clear` was not reached); on
success its animation data is replaced by the produced keyframes. -/
def animate_vehicle_obj [FloorRing α] (tc ts : α → α) (degToRad fps : α)
    (u : UnitSystem) (obj : Obj α) (entries : List (VehiclePathEntry α)) : Obj α :=
  match animate_vehicle tc ts degToRad fps u obj entries with
  | none => obj
  | some ks => { obj with animData := some ks }

/-- One parsed CSV row `(time, speed, yaw_rate)` from `valid_rows`. -/
structure CsvRow (α : Type) where
  time : α
  speed : α
  yaw_rate : α
deriving DecidableEq

/-- The tail of `import_csv_data` (lines 93-110) acting on the parsed
`valid_rows`: empty input is an error (`none`); otherwise, when the
minimum time is negative every stored time is shifted by `-min_time`. -/
def import_csv_data (rows : List (CsvRow α)) : Option (List (CsvRow α)) :=
  match rows with
  | [] => none
  | r :: rs =>
      let min_time := (rs.map CsvRow.time).foldl min r.time
      if min_time < 0 then
        some ((r :: rs).map fun e => ⟨e.time - min_time, e.speed, e.yaw_rate⟩)
      else
        some (r :: rs)

/-! ### Supporting lemmas -/

lemma le_pyRound [FloorRing α] (q : α) : ⌊q⌋ ≤ pyRound q := by
  simp only [pyRound]
  split_ifs <;> omega

lemma pyRound_le [FloorRing α] (q : α) : pyRound q ≤ ⌊q⌋ + 1 := by
  simp only [pyRound]
  split_ifs <;> omega

lemma pyRound_mono [FloorRing α] {q q' : α} (h : q ≤ q') : pyRound q ≤ pyRound q' := by
  rcases lt_or_eq_of_le (Int.floor_le_floor h : ⌊q⌋ ≤ ⌊q'⌋) with hf | hf
  · calc pyRound q ≤ ⌊q⌋ + 1 := pyRound_le q
      _ ≤ ⌊q'⌋ := by omega
      _ ≤ pyRound q' := le_pyRound q'
  · have h2 : q - (⌊q⌋ : α) ≤ q' - (⌊q⌋ : α) := by linarith
    simp only [pyRound, ← hf]
    split_ifs <;> first | omega | linarith

lemma pyRound_nonneg [FloorRing α] {q : α} (h : 0 ≤ q) : 0 ≤ pyRound q := by
  have := le_pyRound q
  have h0 : (0 : ℤ) ≤ ⌊q⌋ := Int.floor_nonneg.mpr h
  omega

lemma t_to_frame_mono [FloorRing α] {fps t t' : α} (hfps : 0 ≤ fps) (h : t ≤ t') :
    t_to_frame fps t ≤ t_to_frame fps t' :=
  pyRound_mono (mul_le_mul_of_nonneg_right h hfps)

lemma le_foldl_max (l : List ℤ) (b : ℤ) : b ≤ l.foldl max b := by
  induction l generalizing b with
  | nil => simp
  | cons x xs ih => exact le_trans (le_max_left b x) (ih (max b x))

lemma mem_le_foldl_max {a : ℤ} {l : List ℤ} (b : ℤ) (h : a ∈ l) : a ≤ l.foldl max b := by
  induction l generalizing b with
  | nil => exact absurd h (List.not_mem_nil a)
  | cons x xs ih =>
      rcases List.mem_cons.mp h with rfl | h'
      · exact le_trans (le_max_right b a) (le_foldl_max xs (max b a))
      · exact ih (max b x) h'

lemma stepsAux_length (tc ts : α → α) (a rdot dt : α) (f0 : ℤ) :
    ∀ (n step : ℕ) (s : SubState α),
      (stepsAux tc ts a rdot dt f0 step n s).2.length = n := by
  intro n
  induction n with
  | zero => intro step s; rfl
  | succ m ih => intro step s; simp [stepsAux, ih]

lemma stepsAux_frame_lb (tc ts : α → α) (a rdot dt : α) (f0 : ℤ) :
    ∀ (n step : ℕ) (s : SubState α),
      ∀ k ∈ (stepsAux tc ts a rdot dt f0 step n s).2, f0 + (step : ℤ) + 1 ≤ k.frame := by
  intro n
  induction n with
  | zero => intro step s k hk; exact absurd hk (List.not_mem_nil k)
  | succ m ih =>
      intro step s k hk
      rcases List.mem_cons.mp hk with rfl | hk'
      · simp
      · have := ih (step + 1) (integrate_step tc ts a rdot dt s) k hk'
        push_cast at this ⊢
        linarith

lemma stepsAux_frame_ub (tc ts : α → α) (a rdot dt : α) (f0 : ℤ) :
    ∀ (n step : ℕ) (s : SubState α),
      ∀ k ∈ (stepsAux tc ts a rdot dt f0 step n s).2, k.frame ≤ f0 + (step : ℤ) + (n : ℤ) := by
  intro n
  induction n with
  | zero => intro step s k hk; exact absurd hk (List.not_mem_nil k)
  | succ m ih =>
      intro step s k hk
      rcases List.mem_cons.mp hk with rfl | hk'
      · simp only []
        push_cast
        linarith
      · have := ih (step + 1) (integrate_step tc ts a rdot dt s) k hk'
        push_cast at this ⊢
        linarith

lemma stepsAux_chain (tc ts : α → α) (a rdot dt : α) (f0 : ℤ) :
    ∀ (n step : ℕ) (s : SubState α),
      List.Chain' (· ≤ ·) ((stepsAux tc ts a rdot dt f0 step n s).2.map Key.frame) := by
  intro n
  induction n with
  | zero => intro step s; simp [stepsAux]
  | succ m ih =>
      intro step s
      simp only [stepsAux, List.map_cons]
      refine List.chain'_cons'.mpr ⟨?_, ih (step + 1) _⟩
      intro y hy
      obtain ⟨k, hk, rfl⟩ := List.exists_of_mem_map (List.mem_of_mem_head? hy)
      have := stepsAux_frame_lb tc ts a rdot dt f0 m (step + 1)
        (integrate_step tc ts a rdot dt s) k hk
      push_cast at this ⊢
      linarith

lemma stepsAux_v (tc ts : α → α) (a rdot dt : α) (f0 : ℤ) :
    ∀ (n step : ℕ) (s : SubState α),
      (stepsAux tc ts a rdot dt f0 step n s).1.v = s.v + (n : α) * (a * dt) := by
  intro n
  induction n with
  | zero => intro step s; simp [stepsAux]
  | succ m ih =>
      intro step s
      simp only [stepsAux, ih]
      simp only [integrate_step]
      push_cast
      ring

lemma stepsAux_r (tc ts : α → α) (a rdot dt : α) (f0 : ℤ) :
    ∀ (n step : ℕ) (s : SubState α),
      (stepsAux tc ts a rdot dt f0 step n s).1.r = s.r + (n : α) * (rdot * dt) := by
  intro n
  induction n with
  | zero => intro step s; simp [stepsAux]
  | succ m ih =>
      intro step s
      simp only [stepsAux, ih]
      simp only [integrate_step]
      push_cast
      ring

lemma runInterval_skip [FloorRing α] (tc ts : α → α) (fps : α) (s0 s1 : Sample α)
    (p : Pose α) (h : s1.time ≤ s0.time) :
    runInterval tc ts fps s0 s1 p = (p, []) := by
  simp only [runInterval]
  rw [if_pos (sub_nonpos.mpr h)]

lemma runInterval_keys [FloorRing α] (tc ts : α → α) (fps : α) (s0 s1 : Sample α)
    (p : Pose α) (h : s0.time < s1.time) :
    ((runInterval tc ts fps s0 s1 p).2).length = (num_steps fps s0.time s1.time).toNat ∧
    List.Chain' (· ≤ ·) (((runInterval tc ts fps s0 s1 p).2).map Key.frame) ∧
    ∀ k ∈ (runInterval tc ts fps s0 s1 p).2,
      t_to_frame fps s0.time + 1 ≤ k.frame ∧
      k.frame ≤ t_to_frame fps s0.time + ((num_steps fps s0.time s1.time).toNat : ℤ) := by
  have hneg : ¬ (s1.time - s0.time ≤ 0) := not_le.mpr (by linarith)
  simp only [runInterval]
  rw [if_neg hneg]
  refine ⟨stepsAux_length tc ts _ _ _ _ _ _ _, stepsAux_chain tc ts _ _ _ _ _ _ _, ?_⟩
  intro k hk
  have h1 := stepsAux_frame_lb tc ts _ _ _ (t_to_frame fps s0.time) _ 0 _ k hk
  have h2 := stepsAux_frame_ub tc ts _ _ _ (t_to_frame fps s0.time) _ 0 _ k hk
  push_cast at h1 h2
  exact ⟨by linarith, by linarith⟩

lemma num_steps_pos [FloorRing α] (fps t0 t1 : α) : 1 ≤ num_steps fps t0 t1 :=
  le_max_right _ 1

lemma num_steps_toNat_cast [FloorRing α] (fps t0 t1 : α) :
    (((num_steps fps t0 t1).toNat : ℤ)) = num_steps fps t0 t1 :=
  Int.toNat_of_nonneg (le_trans one_pos.le (num_steps_pos fps t0 t1))

lemma runIntervals_invariant [FloorRing α] (tc ts : α → α) {fps : α} (hfps : 0 ≤ fps) :
    ∀ (samples : List (Sample α)),
      List.Chain' (· ≤ ·) (samples.map Sample.time) →
      ∀ (p : Pose α),
        List.Chain' (· ≤ ·) (((runIntervals tc ts fps samples p).2).map Key.frame) ∧
        ∀ s0, samples.head? = some s0 →
          ∀ k ∈ (runIntervals tc ts fps samples p).2,
            t_to_frame fps s0.time + 1 ≤ k.frame := by
  intro samples
  induction samples with
  | nil =>
      intro _ p
      refine ⟨by simp [runIntervals], ?_⟩
      intro s0 h
      simp at h
  | cons s0 rest ih =>
      cases rest with
      | nil =>
          intro _ p
          refine ⟨by simp [runIntervals], ?_⟩
          intro s0' _ k hk
          simp [runIntervals] at hk
      | cons s1 rest' =>
          intro hsort p
          have h01 : s0.time ≤ s1.time := (List.chain'_cons.mp hsort).1
          have htail : List.Chain' (· ≤ ·) ((s1 :: rest').map Sample.time) :=
            (List.chain'_cons.mp hsort).2
          have hf01 : t_to_frame fps s0.time ≤ t_to_frame fps s1.time :=
            t_to_frame_mono hfps h01
          rcases le_or_lt s1.time s0.time with hle | hlt
          · have hskip := runInterval_skip tc ts fps s0 s1 p hle
            have IH := ih htail p
            simp only [runIntervals, hskip]
            refine ⟨IH.1, ?_⟩
            intro s0' hs0' k hk
            obtain rfl : s0 = s0' := by simpa using hs0'
            have hb := IH.2 s1 rfl k (by simpa using hk)
            omega
          · have hkeys := runInterval_keys tc ts fps s0 s1 p hlt
            have IH := ih htail ((runInterval tc ts fps s0 s1 p).1)
            simp only [runIntervals]
            have hjoin : t_to_frame fps s0.time + ((num_steps fps s0.time s1.time).toNat : ℤ)
                ≤ t_to_frame fps s1.time + 1 := by
              rw [num_steps_toNat_cast]
              have : num_steps fps s0.time s1.time
                  ≤ t_to_frame fps s1.time - t_to_frame fps s0.time + 1 :=
                max_le (by omega) (by omega)
              omega
            constructor
            · rw [List.map_append]
              refine List.Chain'.append hkeys.2.1 IH.1 ?_
              intro x hx y hy
              obtain ⟨kx, hkx, rfl⟩ :=
                List.exists_of_mem_map (List.mem_of_mem_getLast? hx)
              obtain ⟨ky, hky, rfl⟩ :=
                List.exists_of_mem_map (List.mem_of_mem_head? hy)
              have hub := (hkeys.2.2 kx hkx).2
              have hlb := IH.2 s1 rfl ky hky
              omega
            · intro s0' hs0' k hk
              obtain rfl : s0 = s0' := by simpa using hs0'
              rcases List.mem_append.mp hk with hk1 | hk2
              · exact (hkeys.2.2 k hk1).1
              · have := IH.2 s1 rfl k hk2
                omega

lemma foldl_min_map_sub (l : List α) (a m : α) :
    (l.map fun t => t - m).foldl min (a - m) = l.foldl min a - m := by
  induction l generalizing a with
  | nil => rfl
  | cons x xs ih =>
      simp only [List.map_cons, List.foldl_cons, min_sub_sub_right, ih]

lemma mulPos_isFinite (v : FloatVal α) (c : α) : (v.mulPos c).isFinite = v.isFinite := by
  cases v <;> rfl

lemma all_finite_conv (d : α) (u : UnitSystem) (entries : List (VehiclePathEntry α)) :
    ((entries.map (convert_entry (get_speed_conversion_factor u) d)).all
        fun e => e.time.isFinite && e.speed.isFinite && e.yaw_rate.isFinite)
      = entries.all fun e => e.time.isFinite && e.speed.isFinite && e.yaw_rate.isFinite := by
  rw [List.all_map]
  congr 1
  funext e
  simp [convert_entry, mulPos_isFinite, Function.comp]

/-- C1: each integration sub-step produces exactly psi' = psi + r*dt + 0.5*rdot*dt^2,
r' = r + rdot*dt, ds = v*dt + 0.5*a*dt^2, v' = v + a*dt, and projects ds along the
post-update heading psi': x' = x + ds*cos(psi'), y' = y + ds*sin(psi'). -/
theorem C1_integrate_step_equations (tc ts : α → α) (a rdot dt x y psi v r : α) :
    integrate_step tc ts a rdot dt ⟨x, y, psi, v, r⟩ =
      { x := x + (v * dt + 0.5 * a * dt ^ 2) * tc (psi + r * dt + 0.5 * rdot * dt ^ 2)
        y := y + (v * dt + 0.5 * a * dt ^ 2) * ts (psi + r * dt + 0.5 * rdot * dt ^ 2)
        psi := psi + r * dt + 0.5 * rdot * dt ^ 2
        v := v + a * dt
        r := r + rdot * dt } := by
  have hpsi : psi + r * dt + 0.5 * rdot * dt * dt = psi + r * dt + 0.5 * rdot * dt ^ 2 := by
    ring
  have hds : v * dt + 0.5 * a * dt * dt = v * dt + 0.5 * a * dt ^ 2 := by
    ring
  simp only [integrate_step, hpsi, hds]

/-- C2 (counterexample): the spec's P4 expects the quarter-circle sub-step
(v=1, r=pi/2, dt=1, a=rdot=0 from the origin with heading 0) to land at
x = y = sqrt(2)/2 (midpoint-heading projection); the code projects along the
post-update heading pi/2 and lands at x = 0, y = 1, and neither coordinate
equals sqrt(2)/2. -/
theorem C2_counterexample :
    (integrate_step Real.cos Real.sin 0 0 1 ⟨0, 0, 0, 1, Real.pi / 2⟩).x = 0 ∧
    (integrate_step Real.cos Real.sin 0 0 1 ⟨0, 0, 0, 1, Real.pi / 2⟩).y = 1 ∧
    Real.sqrt 2 / 2 ≠ 0 ∧ Real.sqrt 2 / 2 ≠ 1 := by
  have harg : (0 : ℝ) + Real.pi / 2 * 1 + 0.5 * 0 * 1 * 1 = Real.pi / 2 := by ring
  refine ⟨?_, ?_, ?_, ?_⟩
  · simp only [integrate_step]
    rw [harg, Real.cos_pi_div_two]
    ring
  · simp only [integrate_step]
    rw [harg, Real.sin_pi_div_two]
    ring
  · positivity
  · have h2 : Real.sqrt 2 < 2 :=
      (Real.sqrt_lt' (by norm_num)).mpr (by norm_num)
    have h3 : Real.sqrt 2 / 2 < 1 := by linarith
    exact ne_of_lt h3

/-- C2 (amended): the sub-step of P4 yields heading pi/2, x = cos(pi/2) = 0,
y = sin(pi/2) = 1; the sub-step of P5 yields v = 4, r = 0.6, heading = 1.4 and
x = 3*cos(1.4), y = 3*sin(1.4) - the forward distance is projected along the
post-update heading, not the midpoint heading. -/
theorem C2_amended :
    integrate_step Real.cos Real.sin 0 0 1 ⟨0, 0, 0, 1, Real.pi / 2⟩
      = ⟨0, 1, Real.pi / 2, 1, Real.pi / 2⟩ ∧
    integrate_step Real.cos Real.sin 2 0.4 1 ⟨0, 0, 1, 2, 0.2⟩
      = ⟨3 * Real.cos 1.4, 3 * Real.sin 1.4, 1.4, 4, 0.6⟩ := by
  constructor
  · have harg : (0 : ℝ) + Real.pi / 2 * 1 + 0.5 * 0 * 1 * 1 = Real.pi / 2 := by ring
    simp only [integrate_step, SubState.mk.injEq]
    rw [harg, Real.cos_pi_div_two, Real.sin_pi_div_two]
    norm_num
  · have harg : (1 : ℝ) + 0.2 * 1 + 0.5 * 0.4 * 1 * 1 = 1.4 := by norm_num
    have hds : (2 : ℝ) * 1 + 0.5 * 2 * 1 * 1 = 3 := by norm_num
    simp only [integrate_step, SubState.mk.injEq]
    rw [harg, hds]
    norm_num

/-- C3: time t maps to frame round(t*fps) (Python banker's rounding); an interval
with t1 > t0 performs num_steps = max(f1 - f0, 1) >= 1 sub-steps (each emitting one
keyframe), of equal duration dt = (t1 - t0)/num_steps, with num_steps * dt exactly
equal to t1 - t0. -/
theorem C3_frame_mapping [FloorRing α] (tc ts : α → α) (fps t : α)
    (s0 s1 : Sample α) (p : Pose α) (h : s0.time < s1.time) :
    t_to_frame fps t = pyRound (t * fps) ∧
    num_steps fps s0.time s1.time
      = max (t_to_frame fps s1.time - t_to_frame fps s0.time) 1 ∧
    1 ≤ num_steps fps s0.time s1.time ∧
    ((runInterval tc ts fps s0 s1 p).2).length = (num_steps fps s0.time s1.time).toNat ∧
    step_dt fps s0.time s1.time
      = (s1.time - s0.time) / ((num_steps fps s0.time s1.time : ℤ) : α) ∧
    ((num_steps fps s0.time s1.time : ℤ) : α) * step_dt fps s0.time s1.time
      = s1.time - s0.time := by
  refine ⟨rfl, rfl, num_steps_pos fps _ _, (runInterval_keys tc ts fps s0 s1 p h).1, rfl, ?_⟩
  have h1 : (1 : ℤ) ≤ num_steps fps s0.time s1.time := num_steps_pos fps _ _
  have hne : ((num_steps fps s0.time s1.time : ℤ) : α) ≠ 0 := by
    have h2 : (0 : α) < ((num_steps fps s0.time s1.time : ℤ) : α) := by
      exact_mod_cast lt_of_lt_of_le zero_lt_one h1
    linarith
  rw [step_dt, mul_comm, div_mul_cancel₀ _ hne]

/-- Witness for C3 at fps = 30 on the interval [0, 1]. -/
theorem C3_witness :
    ((0 : ℚ) < 1) ∧
    (t_to_frame (30 : ℚ) 2 = pyRound ((2 : ℚ) * 30) ∧
     num_steps (30 : ℚ) 0 1 = max (t_to_frame (30 : ℚ) 1 - t_to_frame (30 : ℚ) 0) 1 ∧
     1 ≤ num_steps (30 : ℚ) 0 1 ∧
     ((runInterval (fun _ => (0 : ℚ)) (fun _ => 0) 30 ⟨0, 5, 0⟩ ⟨1, 5, 0⟩ ⟨0, 0, 0⟩).2).length
       = (num_steps (30 : ℚ) 0 1).toNat ∧
     step_dt (30 : ℚ) 0 1 = ((1 : ℚ) - 0) / ((num_steps (30 : ℚ) 0 1 : ℤ) : ℚ) ∧
     ((num_steps (30 : ℚ) 0 1 : ℤ) : ℚ) * step_dt (30 : ℚ) 0 1 = 1 - 0) :=
  ⟨by norm_num,
   C3_frame_mapping (fun _ => (0 : ℚ)) (fun _ => 0) 30 2 ⟨0, 5, 0⟩ ⟨1, 5, 0⟩ ⟨0, 0, 0⟩
     (by norm_num)⟩

/-- C4: the last keyframe emitted is at frame
max(round(last_sample_time * fps), last_frame_emitted_by_sub_stepping) and holds the
final integrated pose; no emitted keyframe has a larger frame index. -/
theorem C4_terminal_key [FloorRing α] (tc ts : α → α) (fps : α)
    (samples : List (Sample α)) (init : Pose α) :
    (animate_core tc ts fps samples init).getLast? =
      some ⟨max (t_to_frame fps ((samples.getLast?.getD ⟨0, 0, 0⟩).time))
              ((((runIntervals tc ts fps samples init).2).map Key.frame).foldl max 0),
            (runIntervals tc ts fps samples init).1.x,
            (runIntervals tc ts fps samples init).1.y,
            (runIntervals tc ts fps samples init).1.psi⟩ ∧
    ∀ k ∈ animate_core tc ts fps samples init,
      k.frame ≤ max (t_to_frame fps ((samples.getLast?.getD ⟨0, 0, 0⟩).time))
        ((((runIntervals tc ts fps samples init).2).map Key.frame).foldl max 0) := by
  constructor
  · simp only [animate_core, ← List.cons_append, List.getLast?_concat]
  · intro k hk
    simp only [animate_core] at hk
    rcases List.mem_cons.mp hk with rfl | hk2
    · exact le_max_of_le_right (le_foldl_max _ 0)
    · rcases List.mem_append.mp hk2 with hk3 | hk4
      · exact le_max_of_le_right (mem_le_foldl_max 0 (List.mem_map_of_mem Key.frame hk3))
      · obtain rfl := List.mem_singleton.mp hk4
        exact le_refl _

/-- C5: an interval with t1 <= t0 emits no keyframes, raises no error, and leaves
the running pose untouched for subsequent intervals. -/
theorem C5_degenerate_interval [FloorRing α] (tc ts : α → α) (fps : α)
    (s0 s1 : Sample α) (rest : List (Sample α)) (p : Pose α) (h : s1.time ≤ s0.time) :
    runInterval tc ts fps s0 s1 p = (p, []) ∧
    runIntervals tc ts fps (s0 :: s1 :: rest) p = runIntervals tc ts fps (s1 :: rest) p := by
  refine ⟨runInterval_skip tc ts fps s0 s1 p h, ?_⟩
  simp [runIntervals, runInterval_skip tc ts fps s0 s1 p h]

/-- Witness for C5 on a repeated timestamp t = 1. -/
theorem C5_witness :
    ((1 : ℚ) ≤ 1) ∧
    (runInterval (fun _ => (0 : ℚ)) (fun _ => 0) 30 ⟨1, 2, 3⟩ ⟨1, 4, 5⟩ ⟨6, 7, 8⟩
        = (⟨6, 7, 8⟩, []) ∧
     runIntervals (fun _ => (0 : ℚ)) (fun _ => 0) 30
         [⟨1, 2, 3⟩, ⟨1, 4, 5⟩, ⟨2, 4, 5⟩] ⟨6, 7, 8⟩
       = runIntervals (fun _ => (0 : ℚ)) (fun _ => 0) 30 [⟨1, 4, 5⟩, ⟨2, 4, 5⟩] ⟨6, 7, 8⟩) :=
  ⟨le_refl 1,
   C5_degenerate_interval (fun _ => (0 : ℚ)) (fun _ => 0) 30 ⟨1, 2, 3⟩ ⟨1, 4, 5⟩
     [⟨2, 4, 5⟩] ⟨6, 7, 8⟩ (le_refl 1)⟩

/-- C6: animate_vehicle fails (returns none) exactly when the table has fewer than
2 rows or contains a non-finite time, speed or yaw-rate value; on failure the object
is untouched (its existing animation data is not cleared), because both checks run
before any mutation. -/
theorem C6_validation [FloorRing α] (tc ts : α → α) (d fps : α)
    (u : UnitSystem) (obj : Obj α) (entries : List (VehiclePathEntry α)) :
    (animate_vehicle tc ts d fps u obj entries = none ↔
      entries.length < 2 ∨ ∃ e ∈ entries,
        ¬(e.time.isFinite = true ∧ e.speed.isFinite = true ∧ e.yaw_rate.isFinite = true)) ∧
    (animate_vehicle tc ts d fps u obj entries = none →
      animate_vehicle_obj tc ts d fps u obj entries = obj) := by
  constructor
  · by_cases hlen : entries.length < 2
    · simp only [animate_vehicle, if_pos hlen]
      constructor
      · intro _
        exact Or.inl hlen
      · intro _
        trivial
    · simp only [animate_vehicle, if_neg hlen]
      split_ifs with hall
      · constructor
        · intro h
          exact absurd h (by simp)
        · intro h
          exfalso
          rw [all_finite_conv] at hall
          rcases h with hlen2 | ⟨e, he, hne⟩
          · exact hlen hlen2
          · have hx := List.all_eq_true.mp hall e he
            simp only [Bool.and_eq_true] at hx
            exact hne ⟨hx.1.1, hx.1.2, hx.2⟩
      · constructor
        · intro _
          rw [all_finite_conv] at hall
          simp only [List.all_eq_true, Bool.and_eq_true] at hall
          push_neg at hall
          obtain ⟨e, he, hne⟩ := hall
          exact Or.inr ⟨e, he, fun hc => hne ⟨hc.1, hc.2.1⟩ hc.2.2⟩
        · intro _
          trivial
  · intro h
    simp [animate_vehicle_obj, h]

/-- Witness for C6: a table with a NaN speed fails and leaves the object's
existing animation data intact. -/
theorem C6_witness :
    animate_vehicle_obj (fun _ => (0 : ℚ)) (fun _ => 0) 1 30 UnitSystem.METRIC
        ⟨some [⟨5, 1, 2, 3⟩], 6, 7, 8, 9⟩
        [⟨FloatVal.fin 0, FloatVal.nan, FloatVal.fin 0⟩,
         ⟨FloatVal.fin 1, FloatVal.fin 1, FloatVal.fin 0⟩]
      = ⟨some [⟨5, 1, 2, 3⟩], 6, 7, 8, 9⟩ := by
  have h := C6_validation (fun _ => (0 : ℚ)) (fun _ => 0) 1 30 UnitSystem.METRIC
    ⟨some [⟨5, 1, 2, 3⟩], 6, 7, 8, 9⟩
    [⟨FloatVal.fin 0, FloatVal.nan, FloatVal.fin 0⟩,
     ⟨FloatVal.fin 1, FloatVal.fin 1, FloatVal.fin 0⟩]
  exact h.2 (h.1.mpr (Or.inr ⟨⟨FloatVal.fin 0, FloatVal.nan, FloatVal.fin 0⟩,
    by simp, by simp [FloatVal.isFinite]⟩))

/-- C7 (counterexample): two accepted inputs (>= 2 samples, all values finite)
whose emitted frame sequences are not non-decreasing: out-of-order sample times
[0, 2, 0, 2] give frames [0, 1, 2, 1, 2, 2], and a negative first time -2 gives
frames [0, -1, 0, 0]. -/
theorem C7_counterexample :
    ¬ List.Chain' (· ≤ ·) ((animate_core (fun _ => (0 : ℚ)) (fun _ => 0) 1
        [⟨0, 1, 0⟩, ⟨2, 1, 0⟩, ⟨0, 1, 0⟩, ⟨2, 1, 0⟩] ⟨0, 0, 0⟩).map Key.frame) ∧
    ¬ List.Chain' (· ≤ ·) ((animate_core (fun _ => (0 : ℚ)) (fun _ => 0) 1
        [⟨-2, 1, 0⟩, ⟨0, 1, 0⟩] ⟨0, 0, 0⟩).map Key.frame) := by
  have e1 : (animate_core (fun _ => (0 : ℚ)) (fun _ => 0) 1
      [⟨0, 1, 0⟩, ⟨2, 1, 0⟩, ⟨0, 1, 0⟩, ⟨2, 1, 0⟩] ⟨0, 0, 0⟩).map Key.frame
      = [0, 1, 2, 1, 2, 2] := by
    norm_num [animate_core, runIntervals, runInterval, stepsAux, num_steps, step_dt,
      t_to_frame, pyRound, integrate_step]
  have e2 : (animate_core (fun _ => (0 : ℚ)) (fun _ => 0) 1
      [⟨-2, 1, 0⟩, ⟨0, 1, 0⟩] ⟨0, 0, 0⟩).map Key.frame
      = [0, -1, 0, 0] := by
    norm_num [animate_core, runIntervals, runInterval, stepsAux, num_steps, step_dt,
      t_to_frame, pyRound, integrate_step]
  rw [e1, e2]
  constructor <;> norm_num [List.chain'_cons]

/-- C7 (amended): for accepted inputs whose sample times are non-decreasing and
start at a non-negative time (with fps >= 0), the emitted frame sequence is
non-decreasing and the first emitted keyframe is at frame 0. -/
theorem C7_amended [FloorRing α] (tc ts : α → α) (fps : α)
    (samples : List (Sample α)) (init : Pose α)
    (hfps : 0 ≤ fps) (hlen : 2 ≤ samples.length)
    (hsort : List.Chain' (· ≤ ·) (samples.map Sample.time))
    (h0 : ∀ s ∈ samples.head?, 0 ≤ s.time) :
    ((animate_core tc ts fps samples init).map Key.frame).head? = some 0 ∧
    List.Chain' (· ≤ ·) ((animate_core tc ts fps samples init).map Key.frame) := by
  obtain ⟨s0, rest, rfl⟩ : ∃ s0 rest, samples = s0 :: rest := by
    cases samples with
    | nil => simp at hlen
    | cons a l => exact ⟨a, l, rfl⟩
  have hs0 : 0 ≤ s0.time := h0 s0 (by simp)
  have hf0 : 0 ≤ t_to_frame fps s0.time := pyRound_nonneg (mul_nonneg hs0 hfps)
  have inv := runIntervals_invariant tc ts hfps (s0 :: rest) hsort init
  constructor
  · simp [animate_core]
  · simp only [animate_core, List.map_cons, List.map_append]
    refine List.chain'_cons'.mpr ⟨?_, ?_⟩
    · intro y hy
      rcases List.mem_append.mp (List.mem_of_mem_head? hy) with hy1 | hy2
      · obtain ⟨k, hk, rfl⟩ := List.exists_of_mem_map hy1
        have := inv.2 s0 rfl k hk
        omega
      · have hyv : y = max (t_to_frame fps (((s0 :: rest).getLast?.getD ⟨0, 0, 0⟩).time))
            ((((runIntervals tc ts fps (s0 :: rest) init).2).map Key.frame).foldl max 0) := by
          simpa using hy2
        have h1 : (0 : ℤ) ≤ (((runIntervals tc ts fps (s0 :: rest) init).2).map
            Key.frame).foldl max 0 := le_foldl_max _ 0
        rw [hyv]
        exact le_max_of_le_right h1
    · refine List.Chain'.append inv.1 (List.chain'_singleton _) ?_
      intro x hx y hy
      have hxm : x ∈ ((runIntervals tc ts fps (s0 :: rest) init).2).map Key.frame :=
        List.mem_of_mem_getLast? hx
      have hxb : x ≤ (((runIntervals tc ts fps (s0 :: rest) init).2).map
          Key.frame).foldl max 0 := mem_le_foldl_max 0 hxm
      have hym : max (t_to_frame fps (((s0 :: rest).getLast?.getD ⟨0, 0, 0⟩).time))
          ((((runIntervals tc ts fps (s0 :: rest) init).2).map Key.frame).foldl max 0)
          = y := by simpa using hy
      rw [← hym]
      exact le_max_of_le_right hxb

/-- Witness for the amended C7 on the sorted non-negative table [0, 1] at fps 30. -/
theorem C7_amended_witness :
    (((0 : ℚ) ≤ 30) ∧ 2 ≤ ([⟨0, 1, 2⟩, ⟨1, 3, 4⟩] : List (Sample ℚ)).length ∧
      List.Chain' (· ≤ ·) (([⟨0, 1, 2⟩, ⟨1, 3, 4⟩] : List (Sample ℚ)).map Sample.time) ∧
      (∀ s ∈ ([⟨0, 1, 2⟩, ⟨1, 3, 4⟩] : List (Sample ℚ)).head?, 0 ≤ s.time)) ∧
    ((animate_core (fun _ => (0 : ℚ)) (fun _ => 0) 30
        [⟨0, 1, 2⟩, ⟨1, 3, 4⟩] ⟨0, 0, 0⟩).map Key.frame).head? = some 0 ∧
    List.Chain' (· ≤ ·) ((animate_core (fun _ => (0 : ℚ)) (fun _ => 0) 30
        [⟨0, 1, 2⟩, ⟨1, 3, 4⟩] ⟨0, 0, 0⟩).map Key.frame) :=
  ⟨⟨by norm_num, by norm_num,
    by simp [List.chain'_cons],
    by intro s hs; simp at hs; subst hs; norm_num⟩,
   C7_amended (fun _ => (0 : ℚ)) (fun _ => 0) 30 [⟨0, 1, 2⟩, ⟨1, 3, 4⟩] ⟨0, 0, 0⟩
     (by norm_num) (by norm_num)
     (by simp [List.chain'_cons])
     (by intro s hs; simp at hs; subst hs; norm_num)⟩

/-- C8: with IMPERIAL units every speed is multiplied by 0.44704 (10 mph becomes
exactly 4.4704 m/s), with METRIC it is unchanged, and in both cases every yaw rate
is multiplied by pi/180. -/
theorem C8_unit_conversion (e : VehiclePathEntry ℝ) :
    convert_entry (get_speed_conversion_factor UnitSystem.IMPERIAL) (Real.pi / 180) e
      = ⟨e.time, e.speed.mulPos 0.44704, e.yaw_rate.mulPos (Real.pi / 180)⟩ ∧
    convert_entry (get_speed_conversion_factor UnitSystem.METRIC) (Real.pi / 180) e
      = ⟨e.time, e.speed, e.yaw_rate.mulPos (Real.pi / 180)⟩ ∧
    FloatVal.mulPos (FloatVal.fin (10 : ℝ)) (get_speed_conversion_factor UnitSystem.IMPERIAL)
      = FloatVal.fin 4.4704 := by
  refine ⟨rfl, ?_, ?_⟩
  · have hs : FloatVal.mulPos e.speed (1 : ℝ) = e.speed := by
      cases e.speed <;> simp [FloatVal.mulPos]
    simp [convert_entry, get_speed_conversion_factor, hs]
  · simp only [FloatVal.mulPos, get_speed_conversion_factor, FloatVal.fin.injEq]
    norm_num

/-- C9: when the minimum parsed time m is negative, import_csv_data shifts every
stored time by the same offset -m, making the new minimum 0; when m >= 0 the
times are stored as parsed. -/
theorem C9_time_offset (r : CsvRow α) (rs : List (CsvRow α)) (m : α)
    (hm : m = (rs.map CsvRow.time).foldl min r.time) :
    (m < 0 →
      import_csv_data (r :: rs) =
        some ((r :: rs).map fun e => ⟨e.time - m, e.speed, e.yaw_rate⟩) ∧
      (rs.map fun e => e.time - m).foldl min (r.time - m) = 0) ∧
    (0 ≤ m → import_csv_data (r :: rs) = some (r :: rs)) := by
  constructor
  · intro hneg
    constructor
    · simp only [import_csv_data]
      rw [← hm, if_pos hneg]
    · have hcomp : (rs.map fun e => e.time - m) = (rs.map CsvRow.time).map fun t => t - m := by
        rw [List.map_map]
        rfl
      rw [hcomp, foldl_min_map_sub, ← hm, sub_self]
  · intro hpos
    simp only [import_csv_data]
    rw [← hm, if_neg (not_lt.mpr hpos)]

/-- Witness for C9: times [-2, -1, 0, 1] become [0, 1, 2, 3] (offset 2). -/
theorem C9_witness :
    import_csv_data ([⟨-2, 10, 1⟩, ⟨-1, 11, 2⟩, ⟨0, 12, 3⟩, ⟨1, 13, 4⟩] : List (CsvRow ℚ))
      = some [⟨0, 10, 1⟩, ⟨1, 11, 2⟩, ⟨2, 12, 3⟩, ⟨3, 13, 4⟩] := by
  have h := (C9_time_offset (⟨-2, 10, 1⟩ : CsvRow ℚ) [⟨-1, 11, 2⟩, ⟨0, 12, 3⟩, ⟨1, 13, 4⟩]
    (-2) (by norm_num [min_def])).1 (by norm_num)
  rw [h.1]
  norm_num [CsvRow.mk.injEq]

/-- C10: in exact arithmetic, at the end of every integrated interval the running
speed v equals sample i+1's speed and the running yaw rate r equals sample i+1's
yaw rate: both are re-snapped to sample i's values at the interval start and
advanced num_steps times by a*dt and rdot*dt with num_steps * dt = t1 - t0. -/
theorem C10_rate_continuity [FloorRing α] (tc ts : α → α) (fps : α)
    (s0 s1 : Sample α) (p : Pose α) (h : s0.time < s1.time) :
    (stepsAux tc ts ((s1.speed - s0.speed) / (s1.time - s0.time))
        ((s1.yaw_rate - s0.yaw_rate) / (s1.time - s0.time))
        (step_dt fps s0.time s1.time) (t_to_frame fps s0.time) 0
        (num_steps fps s0.time s1.time).toNat
        ⟨p.x, p.y, p.psi, s0.speed, s0.yaw_rate⟩).1.v = s1.speed ∧
    (stepsAux tc ts ((s1.speed - s0.speed) / (s1.time - s0.time))
        ((s1.yaw_rate - s0.yaw_rate) / (s1.time - s0.time))
        (step_dt fps s0.time s1.time) (t_to_frame fps s0.time) 0
        (num_steps fps s0.time s1.time).toNat
        ⟨p.x, p.y, p.psi, s0.speed, s0.yaw_rate⟩).1.r = s1.yaw_rate := by
  have hI : s1.time - s0.time ≠ 0 := ne_of_gt (by linarith)
  have h1 : (1 : ℤ) ≤ num_steps fps s0.time s1.time := num_steps_pos fps _ _
  have hN0 : (0 : α) < ((num_steps fps s0.time s1.time : ℤ) : α) := by
    exact_mod_cast lt_of_lt_of_le zero_lt_one h1
  have hne : ((num_steps fps s0.time s1.time : ℤ) : α) ≠ 0 := ne_of_gt hN0
  have hcast : (((num_steps fps s0.time s1.time).toNat : ℕ) : α)
      = ((num_steps fps s0.time s1.time : ℤ) : α) := by
    rw [← num_steps_toNat_cast fps s0.time s1.time]
    norm_cast
  have hdt : (((num_steps fps s0.time s1.time).toNat : ℕ) : α) * step_dt fps s0.time s1.time
      = s1.time - s0.time := by
    rw [hcast, step_dt, mul_comm, div_mul_cancel₀ _ hne]
  constructor
  · rw [stepsAux_v]
    have : (((num_steps fps s0.time s1.time).toNat : ℕ) : α)
        * ((s1.speed - s0.speed) / (s1.time - s0.time) * step_dt fps s0.time s1.time)
        = (s1.speed - s0.speed) / (s1.time - s0.time)
          * ((((num_steps fps s0.time s1.time).toNat : ℕ) : α) * step_dt fps s0.time s1.time) := by
      ring
    rw [this, hdt, div_mul_cancel₀ _ hI]
    exact add_sub_cancel s0.speed s1.speed
  · rw [stepsAux_r]
    have : (((num_steps fps s0.time s1.time).toNat : ℕ) : α)
        * ((s1.yaw_rate - s0.yaw_rate) / (s1.time - s0.time) * step_dt fps s0.time s1.time)
        = (s1.yaw_rate - s0.yaw_rate) / (s1.time - s0.time)
          * ((((num_steps fps s0.time s1.time).toNat : ℕ) : α) * step_dt fps s0.time s1.time) := by
      ring
    rw [this, hdt, div_mul_cancel₀ _ hI]
    exact add_sub_cancel s0.yaw_rate s1.yaw_rate

/-- Witness for C10 on the interval [0, 1] with speeds 2 -> 4 and yaw rates 3 -> 6. -/
theorem C10_witness :
    ((0 : ℚ) < 1) ∧
    ((stepsAux (fun _ => (0 : ℚ)) (fun _ => 0) (((4 : ℚ) - 2) / ((1 : ℚ) - 0))
         (((6 : ℚ) - 3) / ((1 : ℚ) - 0))
         (step_dt (30 : ℚ) 0 1) (t_to_frame (30 : ℚ) 0) 0
         (num_steps (30 : ℚ) 0 1).toNat
         ⟨(7 : ℚ), 8, 9, 2, 3⟩).1.v = 4 ∧
     (stepsAux (fun _ => (0 : ℚ)) (fun _ => 0) (((4 : ℚ) - 2) / ((1 : ℚ) - 0))
         (((6 : ℚ) - 3) / ((1 : ℚ) - 0))
         (step_dt (30 : ℚ) 0 1) (t_to_frame (30 : ℚ) 0) 0
         (num_steps (30 : ℚ) 0 1).toNat
         ⟨(7 : ℚ), 8, 9, 2, 3⟩).1.r = 6) :=
  ⟨by norm_num,
   C10_rate_continuity (fun _ => (0 : ℚ)) (fun _ => 0) 30 ⟨0, 2, 3⟩ ⟨1, 4, 6⟩ ⟨7, 8, 9⟩
     (by norm_num)⟩

end HveTools
